import Mathlib

/- Verification of the poll-validate-enrich-deliver pipeline implemented by the
three producer variants of the repository:
  src/src/fargate-producer/app.py  (class CRMInteractionProducer)
  src/crm/main.py                  (class CRMProducer)
  src/web/main.py                  (class WebProducer)

Embedding conventions.  JSON values decoded by response.json() are an inductive
type; Python dicts are association lists with first-match lookup (keys of a real
dict are unique, but no result below needs that assumption).  API-supplied
numbers are integers; the only float arithmetic performed by the pipeline
itself, the data-quality score, is carried exactly as a rational (the IEEE
evaluation of 1.0 - 0.2 - 0.1 - 0.1 stays within the same bounds proved here).
Wall-clock readings (datetime.utcnow().isoformat()) are passed in as a string
parameter, network and AWS clients are outcome oracles, and a Python exception
escaping a function is the error case of Except. -/

/-- JSON values as decoded by response.json().  jint carries API integers, jrat
carries the rationals computed by the pipeline (the data-quality score). -/
inductive Json : Type where
  | jnull : Json
  | jbool : Bool → Json
  | jint : Int → Json
  | jrat : Rat → Json
  | jstr : String → Json
  | jarr : List Json → Json
  | jobj : List (String × Json) → Json

/-- A Python dict: an association list of string keys to JSON values. -/
abbrev Dict := List (String × Json)

/-- Python d[k] / d.get(k): the value at the first occurrence of key k. -/
def lookupKey : Dict → String → Option Json
  | [], _ => none
  | (k, v) :: rest, key => if k = key then some v else lookupKey rest key

/-- Python membership test: k in d. -/
def hasKey (d : Dict) (k : String) : Bool :=
  (lookupKey d k).isSome

/-- Python dict assignment d[k] = v: replaces the value when the key is present
(in place, preserving insertion order), appends at the end otherwise. -/
def setKey : Dict → String → Json → Dict
  | [], k, v => [(k, v)]
  | (k0, v0) :: rest, k, v =>
      if k0 = k then (k, v) :: setKey rest k v else (k0, v0) :: setKey rest k v

/- ----------------------------------------------------------------------
Fargate producer (src/src/fargate-producer/app.py, CRMInteractionProducer)
---------------------------------------------------------------------- -/

/-- CRMInteractionProducer.poll_api, app.py lines 75-83: normalization applied
to a successfully decoded JSON body.  A dict becomes a one-element list, a list
is used as-is, and any other shape logs a warning and returns the empty list,
which is still a successful poll.  Transport, HTTP-status and JSON-decode
failures make poll_api return None (lines 85-100); callers model that by
passing none to fargate_cycle.  There is no check for an error key. -/
def poll_api_decode : Json → Option (List Json)
  | .jobj o => some [.jobj o]
  | .jarr l => some l
  | _ => some []

/-- CRMInteractionProducer.validate_record, app.py lines 102-122: the record
must be a dict containing all of customer_id, interaction_type and timestamp,
with customer_id an integer and interaction_type a string.  The timestamp value
itself is not inspected (a null timestamp passes).  CPython would also let a
bool customer_id pass isinstance(x, int); no claim depends on that corner. -/
def validate_record : Json → Bool
  | .jobj r =>
      hasKey r "customer_id" && hasKey r "interaction_type" && hasKey r "timestamp" &&
        (match lookupKey r "customer_id" with
          | some (.jint _) => true
          | _ => false) &&
        (match lookupKey r "interaction_type" with
          | some (.jstr _) => true
          | _ => false)
  | _ => false

/-- Model of datetime.fromtimestamp(t).isoformat() on an integer epoch.
CPython raises (OverflowError / OSError / ValueError) when the epoch falls
outside the platform-convertible range, which is contained in the datetime
year range 0001-9999 used here; none is that raise.  The rendered string is
irrelevant to every property proved below, so it is abstracted to a tag. -/
def fromtimestampIso (t : Int) : Option String :=
  if -62135596800 ≤ t ∧ t ≤ 253402300799 then some ("iso:" ++ toString t) else none

/-- The data-quality computation of enrich_record, app.py lines 132-140:
start at 1.0, subtract 0.2 when rating is absent, 0.1 when message_excerpt is
absent, 0.1 when channel is absent (exact rational arithmetic). -/
def data_quality_score (record : Dict) : Rat :=
  let q1 : Rat := 1
  let q2 := if hasKey record "rating" then q1 else q1 - 2/10
  let q3 := if hasKey record "message_excerpt" then q2 else q2 - 1/10
  if hasKey record "channel" then q3 else q3 - 1/10

/-- CRMInteractionProducer.enrich_record, app.py lines 124-147: copies the
record, adds processed_at, processor_version and data_quality_score, and when
the original timestamp is numeric also adds timestamp_iso.  The fromtimestamp
call on line 145 is not guarded by try/except, so a numeric timestamp outside
the convertible range raises out of enrich_record: that is the error case.
Non-dict input would raise at record.copy() (enrich_record is only called on
records that passed validate_record, hence on dicts). -/
def enrich_record (now : String) : Json → Except Unit Json
  | .jobj record =>
      let e1 := setKey record "processed_at" (.jstr now)
      let e2 := setKey e1 "processor_version" (.jstr "1.0")
      let e3 := setKey e2 "data_quality_score" (.jrat (data_quality_score record))
      match lookupKey record "timestamp" with
      | some (.jint t) =>
          match fromtimestampIso t with
          | some s => .ok (.jobj (setKey e3 "timestamp_iso" (.jstr s)))
          | none => .error ()
      | _ => .ok (.jobj e3)
  | _ => .error ()

/-- The validate-and-enrich loop of send_to_firehose, app.py lines 154-161:
keeps the enrichment of every record passing validate_record, in input order;
invalid records are dropped with a log.  An exception escaping enrich_record
aborts the whole call (it propagates up to run_with_retries). -/
def fargate_valid_enriched (now : String) : List Json → Except Unit (List Json)
  | [] => .ok []
  | r :: rest =>
      if validate_record r then
        match enrich_record now r with
        | .ok e => (fargate_valid_enriched now rest).map (fun l => e :: l)
        | .error u => .error u
      else fargate_valid_enriched now rest

/-- The batching loop of send_to_firehose, app.py lines 167-169: the slices
valid_records[i:i+batch_size] for i = 0, batch_size, 2*batch_size, ... .
In Python a batch size of 0 would raise ValueError inside range(); the n = 0
branch below is dead under the hypothesis 0 < n carried by every theorem
about a configured batch size. -/
def chunks (n : Nat) (l : List Json) : List (List Json) :=
  match l with
  | [] => []
  | x :: xs =>
      if hn : n = 0 then []
      else (x :: xs).take n :: chunks n ((x :: xs).drop n)
termination_by l.length
decreasing_by
  simp only [List.length_drop, List.length_cons]
  omega

/-- Batches actually submitted by the loop of send_to_firehose, app.py lines
167-171: batches go in order and the loop returns False at the first batch
whose submission fails, so the failing batch is the last one submitted.
ok i is the oracle outcome of the i-th call to _send_batch_to_firehose
(its internal try/except turns any transport exception into False). -/
def firehose_submitted (ok : Nat → Bool) : List (List Json) → Nat → List (List Json)
  | [], _ => []
  | b :: rest, i => if ok i then b :: firehose_submitted ok rest (i + 1) else [b]

/-- Boolean result of the same loop: True only when every batch submission
succeeded (short-circuiting at the first failure). -/
def firehose_all_ok (ok : Nat → Bool) : List (List Json) → Nat → Bool
  | [], _ => true
  | _ :: rest, i => ok i && firehose_all_ok ok rest (i + 1)

/-- CRMInteractionProducer.send_to_firehose, app.py lines 149-173: empty input
returns True; otherwise validate and enrich (a raise propagates), return True
when nothing valid survives, else submit the batches.  n is batch_size. -/
def send_to_firehose (now : String) (n : Nat) (ok : Nat → Bool)
    (records : List Json) : Except Unit Bool :=
  if records.isEmpty then .ok true
  else
    match fargate_valid_enriched now records with
    | .error u => .error u
    | .ok valid =>
        if valid.isEmpty then .ok true
        else .ok (firehose_all_ok ok (chunks n valid) 0)

/-- The two ways one iteration of run_with_retries can end: normally with a
cycle success flag, or through the except-branch of app.py lines 246-249. -/
inductive CycleEnd : Type where
  | normal : Bool → CycleEnd
  | raised : CycleEnd

/-- Which sleep the loop performs before the next iteration. -/
inductive SleepKind : Type where
  | pollInterval : SleepKind
  | retryDelay : SleepKind

/-- The counter-and-sleep logic of one iteration of run_with_retries, app.py
lines 216-249, given the consecutive_failures value entering the iteration and
how the cycle ended.  Normal end: success resets the counter, failure
increments it, then the counter is compared with max_retries to pick the sleep
(reaching it sleeps retry_delay and resets to 0).  An exception caught by the
outer except-branch increments the counter and sleeps retry_delay with no
threshold comparison and no reset. -/
def run_step (maxRetries failures : Nat) : CycleEnd → Nat × SleepKind
  | .normal success =>
      let c := if success then 0 else failures + 1
      if maxRetries ≤ c then (0, .retryDelay) else (c, .pollInterval)
  | .raised => (failures + 1, .retryDelay)

/-- How one fargate cycle ends, app.py lines 219-231: a failed poll (None) is a
cycle failure; otherwise send_to_firehose decides, and an exception escaping it
(e.g. from enrich_record) lands in the except-branch. -/
def fargate_cycle (now : String) (n : Nat) (ok : Nat → Bool) :
    Option (List Json) → CycleEnd
  | none => .normal false
  | some records =>
      match send_to_firehose now n ok records with
      | .ok b => .normal b
      | .error _ => .raised

/- ----------------------------------------------------------------------
CRM producer (src/crm/main.py, CRMProducer)
---------------------------------------------------------------------- -/

/-- CRMProducer.fetch_data, crm/main.py lines 99-115: a decoded dict containing
an error key is a fetch failure (None); otherwise a list is used as-is, a dict
is wrapped as a one-element list, and any other shape is a fetch failure. -/
def crm_fetch_decode : Json → Option (List Json)
  | .jobj o => if hasKey o "error" then none else some [.jobj o]
  | .jarr l => some l
  | _ => none

/-- WebProducer.fetch_data, web/main.py lines 90-115: identical decoded-body
handling to the crm variant. -/
def web_fetch_decode : Json → Option (List Json)
  | .jobj o => if hasKey o "error" then none else some [.jobj o]
  | .jarr l => some l
  | _ => none

/-- Records serialized into the S3 object body by CRMProducer.send_to_s3,
crm/main.py lines 139-159: every fetched record, unvalidated and unenriched,
newline-joined into one object (serialization elided: the delivered batch is
the record list itself). -/
def s3_batch (records : List Json) : List Json := records

/-- Records placed in the single Firehose batch by CRMProducer.send_to_firehose,
crm/main.py lines 176-191: raw records, keeping everything except dicts that
contain an error key (non-dict records are kept and serialized as-is). -/
def crm_firehose_batch (records : List Json) : List Json :=
  records.filter (fun r =>
    match r with
    | .jobj o => !hasKey o "error"
    | _ => true)

/-- CRMProducer.send_to_both_destinations, crm/main.py lines 220-225: submits
to S3 and then to Firehose unconditionally and sequentially; sOk and fOk are
the per-sink outcome oracles (each sink's own try/except converts any
exception into False).  Result: the (outcome, submitted batch) pair per sink,
S3 first. -/
def send_to_both_destinations (sOk fOk : Bool) (records : List Json) :
    (Bool × List Json) × (Bool × List Json) :=
  ((sOk, s3_batch records), (fOk, crm_firehose_batch records))

/- ----------------------------------------------------------------------
Web producer (src/web/main.py, WebProducer)
---------------------------------------------------------------------- -/

/-- The required-field list of WebProducer.is_valid_record, web/main.py
line 135. -/
def required_web_fields : List String :=
  ["session_id", "page", "device_type", "browser", "event_type", "timestamp"]

/-- WebProducer.is_valid_record, web/main.py lines 128-149: the record must be
a dict containing at least 4 of the 6 required fields, and additionally the
timestamp key must be present with a non-null value; otherwise False.  No
type checks are performed.  The surrounding try/except is dead weight in this
pure model. -/
def is_valid_record : Json → Bool
  | .jobj r =>
      let cnt := (required_web_fields.filter (fun f => hasKey r f)).length
      if 4 ≤ cnt then
        match lookupKey r "timestamp" with
        | some .jnull => false
        | some _ => true
        | none => false
      else false
  | _ => false

/-- Shallow model of Python str() as used on web/main.py line 157 to tag a
non-mapping record; the rendered text never matters because the resulting
one-key dict always fails is_valid_record. -/
def pyStr : Json → String
  | .jnull => "None"
  | .jbool b => if b then "True" else "False"
  | .jint n => toString n
  | .jrat q => toString q
  | .jstr s => s
  | .jarr _ => "[...]"
  | .jobj _ => "\x7b...\x7d"

/-- WebProducer.process_record, web/main.py lines 151-181: non-dict input is
replaced by a raw_data one-key dict; a record with an error key is skipped
(None); an invalid record is skipped (None); a valid record is enriched by the
dict-spread of line 170-176 adding processed_at, source, pipeline and region
in that order.  The try/except makes the function total. -/
def process_record (now region : String) (record : Json) : Option Json :=
  let r : Dict :=
    match record with
    | .jobj o => o
    | other => [("raw_data", .jstr (pyStr other))]
  if hasKey r "error" then none
  else if is_valid_record (.jobj r) then
    some (.jobj (setKey (setKey (setKey (setKey r "processed_at" (.jstr now))
      "source" (.jstr "web-api")) "pipeline" (.jstr "web-processor"))
      "region" (.jstr region)))
  else none

/-- The record-processing loop of WebProducer.send_to_firehose, web/main.py
lines 191-202: the single Firehose batch holds the processed form of every
record process_record keeps, in input order. -/
def web_firehose_records (now region : String) : List Json → List Json
  | [] => []
  | r :: rest =>
      match process_record now region r with
      | some e => e :: web_firehose_records now region rest
      | none => web_firehose_records now region rest

/- ----------------------------------------------------------------------
Spec-side validity policies (used to state the amended form of C4)
---------------------------------------------------------------------- -/

/-- Field k is present with an integer value. -/
def intTyped (o : Dict) (k : String) : Bool :=
  match lookupKey o k with
  | some (.jint _) => true
  | _ => false

/-- Field k is present with a string value. -/
def strTyped (o : Dict) (k : String) : Bool :=
  match lookupKey o k with
  | some (.jstr _) => true
  | _ => false

/-- Field k is present and its value is not null. -/
def presentNonNull (o : Dict) (k : String) : Bool :=
  match lookupKey o k with
  | some .jnull => false
  | some _ => true
  | none => false

/-- The required-field list of the fargate validator, app.py line 107. -/
def fargate_required_fields : List String :=
  ["customer_id", "interaction_type", "timestamp"]

/-- Amended validity policy of the fargate validator, as the code forces it:
a mapping holding all three required fields (minimum count = the full set),
customer_id integer-typed and interaction_type string-typed; the timestamp
value is unconstrained, so a present-but-null timestamp is accepted. -/
def fargateValidPolicy : Json → Bool
  | .jobj o =>
      decide (3 ≤ (fargate_required_fields.filter (fun f => hasKey o f)).length) &&
        intTyped o "customer_id" && strTyped o "interaction_type"
  | _ => false

/-- Amended validity policy of the web validator, as the code forces it:
a mapping holding at least 4 of the 6 required fields whose timestamp is
present and non-null (an absent timestamp invalidates even with 4 or more
fields present); no type checks. -/
def webValidPolicy : Json → Bool
  | .jobj o =>
      decide (4 ≤ (required_web_fields.filter (fun f => hasKey o f)).length) &&
        presentNonNull o "timestamp"
  | _ => false

/-- The guard under which the out-of-range raise of enrich_record cannot fire:
the timestamp field, when it is numeric, is a convertible epoch (same range as
fromtimestampIso). -/
def timestampConvertible (o : Dict) : Bool :=
  match lookupKey o "timestamp" with
  | some (.jint t) => decide (-62135596800 ≤ t ∧ t ≤ 253402300799)
  | _ => true

/-- True exactly when an Except value is the success case. -/
def isOkE (e : Except Unit Json) : Bool :=
  match e with
  | .ok _ => true
  | .error _ => false

/- ----------------------------------------------------------------------
Concrete fixtures used by counterexamples and witnesses
---------------------------------------------------------------------- -/

/-- The upstream error object of the spec example: a rate-limited response. -/
def errDict : Dict := [("error", .jstr "rate limited")]

/-- A record passing validate_record whose numeric timestamp is far outside
the convertible epoch range, so enrich_record raises on it. -/
def badDict : Dict :=
  [("customer_id", .jint 1), ("interaction_type", .jstr "call"),
   ("timestamp", .jint 1000000000000000000)]

/-- A record passing validate_record whose timestamp is present and null. -/
def nullTsDict : Dict :=
  [("customer_id", .jint 7), ("interaction_type", .jstr "call"),
   ("timestamp", .jnull)]

/-- A record that fails every validator (none of the required fields). -/
def strayRec : Json := .jobj [("foo", .jnull)]

/-- A well-formed CRM record with an in-range epoch timestamp. -/
def c7dict : Dict :=
  [("customer_id", .jint 7), ("interaction_type", .jstr "call"),
   ("timestamp", .jint 1690000000)]

/-- The dict produced by enriching c7dict (extracted computationally). -/
def c7out : Dict :=
  match enrich_record "T" (.jobj c7dict) with
  | .ok (.jobj e) => e
  | _ => []

/-- A minimal record missing all three optional quality fields. -/
def c10dict : Dict := [("customer_id", .jint 1)]

/-- The dict produced by enriching c10dict (extracted computationally). -/
def c10out : Dict :=
  match enrich_record "T" (.jobj c10dict) with
  | .ok (.jobj e) => e
  | _ => []

/-- A well-formed web-traffic record (the spec example plus a browser field). -/
def webDict : Dict :=
  [("session_id", .jstr "a1"), ("page", .jstr "/home"),
   ("browser", .jstr "firefox"), ("timestamp", .jint 1690000000)]

/-- The dict produced by processing webDict (extracted computationally). -/
def webOut : Dict :=
  match process_record "T" "eu-west-1" (.jobj webDict) with
  | some (.jobj e) => e
  | _ => []

/-- A batch-outcome oracle making every submission succeed. -/
def allOk : Nat → Bool := fun _ => true

/-- A batch-outcome oracle making every submission fail. -/
def allFail : Nat → Bool := fun _ => false

/-- A first Firehose batch fixture. -/
def batchA : List Json := [.jint 1]

/-- A second Firehose batch fixture. -/
def batchB : List Json := [.jint 2]

/- ----------------------------------------------------------------------
Shared lemmas about the dictionary operations
---------------------------------------------------------------------- -/

theorem lookupKey_setKey_self (d : Dict) (k : String) (v : Json) :
    lookupKey (setKey d k v) k = some v := by
  induction d with
  | nil => simp [setKey, lookupKey]
  | cons p rest ih =>
      obtain ⟨k0, v0⟩ := p
      by_cases h : k0 = k <;> simp [setKey, lookupKey, h, ih]

theorem lookupKey_setKey_ne (d : Dict) (k q : String) (v : Json) (h : q ≠ k) :
    lookupKey (setKey d k v) q = lookupKey d q := by
  have h2 : ¬k = q := fun hh => h hh.symm
  induction d with
  | nil => simp [setKey, lookupKey, h2]
  | cons p rest ih =>
      obtain ⟨k0, v0⟩ := p
      by_cases h0 : k0 = k
      · subst h0
        simp [setKey, lookupKey, h2, ih]
      · simp [setKey, lookupKey, h0, ih]

theorem hasKey_setKey_mono (d : Dict) (k q : String) (v : Json)
    (h : hasKey d q = true) : hasKey (setKey d k v) q = true := by
  by_cases hq : q = k
  · subst hq
    show (lookupKey (setKey d q v) q).isSome = true
    rw [lookupKey_setKey_self]
    rfl
  · show (lookupKey (setKey d k v) q).isSome = true
    rw [lookupKey_setKey_ne d k q v hq]
    exact h

/- ----------------------------------------------------------------------
Lemmas about the fargate enrichment
---------------------------------------------------------------------- -/

theorem data_quality_score_bounds (r : Dict) :
    (3 : Rat)/5 ≤ data_quality_score r ∧ data_quality_score r ≤ 1 := by
  unfold data_quality_score
  cases hasKey r "rating" <;> cases hasKey r "message_excerpt" <;>
    cases hasKey r "channel" <;> norm_num

theorem enrich_record_ok (now : String) (r : Dict) (e : Json)
    (h : enrich_record now (.jobj r) = .ok e) :
    ∃ d, e = .jobj d ∧
      (∀ q, q ≠ "processed_at" → q ≠ "processor_version" →
        q ≠ "data_quality_score" → q ≠ "timestamp_iso" →
        lookupKey d q = lookupKey r q) ∧
      (∀ q, hasKey r q = true → hasKey d q = true) ∧
      lookupKey d "data_quality_score" = some (.jrat (data_quality_score r)) := by
  simp only [enrich_record] at h
  split at h
  · rename_i t hts
    split at h
    · rename_i s hiso
      injection h with h2
      subst h2
      refine ⟨_, rfl, ?_, ?_, ?_⟩
      · intro q h1 h2 h3 h4
        rw [lookupKey_setKey_ne _ _ _ _ h4, lookupKey_setKey_ne _ _ _ _ h3,
          lookupKey_setKey_ne _ _ _ _ h2, lookupKey_setKey_ne _ _ _ _ h1]
      · intro q hq
        exact hasKey_setKey_mono _ _ _ _ (hasKey_setKey_mono _ _ _ _
          (hasKey_setKey_mono _ _ _ _ (hasKey_setKey_mono _ _ _ _ hq)))
      · rw [lookupKey_setKey_ne _ _ _ _ (by decide), lookupKey_setKey_self]
    · exact absurd h (by simp)
  · injection h with h2
    subst h2
    refine ⟨_, rfl, ?_, ?_, ?_⟩
    · intro q h1 h2 h3 h4
      rw [lookupKey_setKey_ne _ _ _ _ h3, lookupKey_setKey_ne _ _ _ _ h2,
        lookupKey_setKey_ne _ _ _ _ h1]
    · intro q hq
      exact hasKey_setKey_mono _ _ _ _ (hasKey_setKey_mono _ _ _ _
        (hasKey_setKey_mono _ _ _ _ hq))
    · rw [lookupKey_setKey_self]

theorem validate_record_enrich (now : String) (r e : Json)
    (hv : validate_record r = true) (he : enrich_record now r = .ok e) :
    validate_record e = true := by
  cases r with
  | jobj ro =>
      obtain ⟨d, rfl, hframe, hmono, _⟩ := enrich_record_ok now ro e he
      simp only [validate_record, Bool.and_eq_true] at hv ⊢
      obtain ⟨⟨⟨⟨h1, h2⟩, h3⟩, h4⟩, h5⟩ := hv
      refine ⟨⟨⟨⟨hmono _ h1, hmono _ h2⟩, hmono _ h3⟩, ?_⟩, ?_⟩
      · rw [hframe "customer_id" (by decide) (by decide) (by decide) (by decide)]
        exact h4
      · rw [hframe "interaction_type" (by decide) (by decide) (by decide) (by decide)]
        exact h5
  | jnull => exact absurd hv (by simp [validate_record])
  | jbool b => exact absurd hv (by simp [validate_record])
  | jint n => exact absurd hv (by simp [validate_record])
  | jrat q => exact absurd hv (by simp [validate_record])
  | jstr s => exact absurd hv (by simp [validate_record])
  | jarr l => exact absurd hv (by simp [validate_record])

theorem mem_fargate_valid_enriched (now : String) (records valid : List Json)
    (h : fargate_valid_enriched now records = .ok valid) :
    ∀ e ∈ valid, ∃ r, r ∈ records ∧ validate_record r = true ∧
      enrich_record now r = .ok e := by
  induction records generalizing valid with
  | nil =>
      simp only [fargate_valid_enriched] at h
      injection h with h2
      subst h2
      intro e he
      exact absurd he (by simp)
  | cons r rest ih =>
      simp only [fargate_valid_enriched] at h
      by_cases hv : validate_record r
      · rw [if_pos hv] at h
        cases henr : enrich_record now r with
        | error u => rw [henr] at h; exact absurd h (by simp)
        | ok e0 =>
            rw [henr] at h
            cases hrec : fargate_valid_enriched now rest with
            | error u => rw [hrec] at h; exact absurd h (by simp [Except.map])
            | ok l =>
                rw [hrec] at h
                simp only [Except.map] at h
                injection h with h2
                subst h2
                intro e he
                rcases List.mem_cons.mp he with he1 | he2
                · subst he1
                  exact ⟨r, List.mem_cons_self r rest, hv, henr⟩
                · obtain ⟨r2, hr2, hv2, he2⟩ := ih l hrec e he2
                  exact ⟨r2, List.mem_cons_of_mem r hr2, hv2, he2⟩
      · rw [if_neg hv] at h
        intro e he
        obtain ⟨r2, hr2, hv2, he2⟩ := ih valid h e he
        exact ⟨r2, List.mem_cons_of_mem r hr2, hv2, he2⟩

theorem fargate_valid_all_validate (now : String) (records valid : List Json)
    (h : fargate_valid_enriched now records = .ok valid) :
    ∀ e ∈ valid, validate_record e = true := by
  intro e he
  obtain ⟨r, _, hv, henr⟩ := mem_fargate_valid_enriched now records valid h e he
  exact validate_record_enrich now r e hv henr

/- ----------------------------------------------------------------------
Lemmas about the batching function
---------------------------------------------------------------------- -/

theorem chunks_mem_aux (n : Nat) :
    ∀ (fuel : Nat) (l : List Json), l.length ≤ fuel →
      ∀ b ∈ chunks n l, ∀ e ∈ b, e ∈ l := by
  intro fuel
  induction fuel with
  | zero =>
      intro l hl b hb e he
      have h0 : l = [] := List.eq_nil_of_length_eq_zero (Nat.le_zero.mp hl)
      subst h0
      simp [chunks] at hb
  | succ f ih =>
      intro l hl b hb e he
      cases l with
      | nil => simp [chunks] at hb
      | cons x xs =>
          by_cases hn : n = 0
          · simp [chunks, hn] at hb
          · simp only [chunks, dif_neg hn] at hb
            rcases List.mem_cons.mp hb with hb1 | hb2
            · subst hb1
              exact List.take_subset n (x :: xs) he
            · have hlen : ((x :: xs).drop n).length ≤ f := by
                simp only [List.length_drop, List.length_cons]
                simp only [List.length_cons] at hl
                omega
              exact List.drop_subset n (x :: xs) (ih _ hlen b hb2 e he)

theorem chunks_join_aux (n : Nat) (hn : 0 < n) :
    ∀ (fuel : Nat) (l : List Json), l.length ≤ fuel → (chunks n l).flatten = l := by
  intro fuel
  induction fuel with
  | zero =>
      intro l hl
      have h0 : l = [] := List.eq_nil_of_length_eq_zero (Nat.le_zero.mp hl)
      subst h0
      simp [chunks]
  | succ f ih =>
      intro l hl
      cases l with
      | nil => simp [chunks]
      | cons x xs =>
          have hn0 : ¬n = 0 := Nat.pos_iff_ne_zero.mp hn
          simp only [chunks, dif_neg hn0, List.flatten_cons]
          rw [ih ((x :: xs).drop n) (by
            simp only [List.length_drop, List.length_cons]
            simp only [List.length_cons] at hl
            omega)]
          exact List.take_append_drop n (x :: xs)

theorem chunks_length_aux (n : Nat) :
    ∀ (fuel : Nat) (l : List Json), l.length ≤ fuel →
      ∀ b ∈ chunks n l, b.length ≤ n := by
  intro fuel
  induction fuel with
  | zero =>
      intro l hl b hb
      have h0 : l = [] := List.eq_nil_of_length_eq_zero (Nat.le_zero.mp hl)
      subst h0
      simp [chunks] at hb
  | succ f ih =>
      intro l hl b hb
      cases l with
      | nil => simp [chunks] at hb
      | cons x xs =>
          by_cases hn : n = 0
          · simp [chunks, hn] at hb
          · simp only [chunks, dif_neg hn] at hb
            rcases List.mem_cons.mp hb with hb1 | hb2
            · subst hb1
              exact List.length_take_le n (x :: xs)
            · have hlen : ((x :: xs).drop n).length ≤ f := by
                simp only [List.length_drop, List.length_cons]
                simp only [List.length_cons] at hl
                omega
              exact ih _ hlen b hb2

theorem chunks_singleton (n : Nat) (hn : 0 < n) (x : Json) :
    chunks n [x] = [[x]] := by
  have hn0 : ¬n = 0 := Nat.pos_iff_ne_zero.mp hn
  simp only [chunks, dif_neg hn0]
  rw [List.take_of_length_le (by simp; omega), List.drop_eq_nil_of_le (by simp; omega)]
  simp [chunks]

/- ----------------------------------------------------------------------
Lemmas about the web record processing
---------------------------------------------------------------------- -/

theorem is_valid_process_preserved (o d : Dict)
    (hv : is_valid_record (.jobj o) = true)
    (hframe : ∀ q, q ≠ "processed_at" → q ≠ "source" → q ≠ "pipeline" →
      q ≠ "region" → lookupKey d q = lookupKey o q)
    (hmono : ∀ q, hasKey o q = true → hasKey d q = true) :
    is_valid_record (.jobj d) = true := by
  simp only [is_valid_record] at hv ⊢
  by_cases h4 : 4 ≤ (required_web_fields.filter (fun f => hasKey o f)).length
  · have hcnt : (required_web_fields.filter (fun f => hasKey o f)).length ≤
        (required_web_fields.filter (fun f => hasKey d f)).length := by
      rw [← List.countP_eq_length_filter, ← List.countP_eq_length_filter]
      exact List.countP_mono_left (fun a _ hp => hmono a hp)
    rw [if_pos h4] at hv
    rw [if_pos (le_trans h4 hcnt)]
    rw [hframe "timestamp" (by decide) (by decide) (by decide) (by decide)]
    exact hv
  · rw [if_neg h4] at hv
    exact absurd hv (by simp)

theorem process_record_some (now region : String) (j e : Json)
    (h : process_record now region j = some e) :
    ∃ o d, j = .jobj o ∧ e = .jobj d ∧ is_valid_record (.jobj o) = true ∧
      (∀ q, q ≠ "processed_at" → q ≠ "source" → q ≠ "pipeline" → q ≠ "region" →
        lookupKey d q = lookupKey o q) ∧
      (∀ q, hasKey o q = true → hasKey d q = true) := by
  cases j with
  | jobj o =>
      simp only [process_record] at h
      by_cases herr : hasKey o "error" = true
      · rw [if_pos herr] at h
        exact absurd h (by simp)
      · rw [if_neg herr] at h
        by_cases hv : is_valid_record (.jobj o) = true
        · rw [if_pos hv] at h
          injection h with h2
          subst h2
          refine ⟨o, _, rfl, rfl, hv, ?_, ?_⟩
          · intro q h1 h2 h3 h4
            rw [lookupKey_setKey_ne _ _ _ _ h4, lookupKey_setKey_ne _ _ _ _ h3,
              lookupKey_setKey_ne _ _ _ _ h2, lookupKey_setKey_ne _ _ _ _ h1]
          · intro q hq
            exact hasKey_setKey_mono _ _ _ _ (hasKey_setKey_mono _ _ _ _
              (hasKey_setKey_mono _ _ _ _ (hasKey_setKey_mono _ _ _ _ hq)))
        · rw [if_neg hv] at h
          exact absurd h (by simp)
  | jnull =>
      simp [process_record, is_valid_record, hasKey, lookupKey,
        required_web_fields, List.filter, pyStr] at h
  | jbool b =>
      simp [process_record, is_valid_record, hasKey, lookupKey,
        required_web_fields, List.filter, pyStr] at h
  | jint n =>
      simp [process_record, is_valid_record, hasKey, lookupKey,
        required_web_fields, List.filter, pyStr] at h
  | jrat q =>
      simp [process_record, is_valid_record, hasKey, lookupKey,
        required_web_fields, List.filter, pyStr] at h
  | jstr s =>
      simp [process_record, is_valid_record, hasKey, lookupKey,
        required_web_fields, List.filter, pyStr] at h
  | jarr l =>
      simp [process_record, is_valid_record, hasKey, lookupKey,
        required_web_fields, List.filter, pyStr] at h

theorem mem_web_firehose (now region : String) (records : List Json) :
    ∀ e ∈ web_firehose_records now region records,
      ∃ r, r ∈ records ∧ process_record now region r = some e := by
  induction records with
  | nil => intro e he; simp [web_firehose_records] at he
  | cons r rest ih =>
      intro e he
      simp only [web_firehose_records] at he
      cases hp : process_record now region r with
      | some e0 =>
          rw [hp] at he
          rcases List.mem_cons.mp he with he1 | he2
          · subst he1
            exact ⟨r, List.mem_cons_self r rest, hp⟩
          · obtain ⟨r2, hr2, hp2⟩ := ih e he2
            exact ⟨r2, List.mem_cons_of_mem r hr2, hp2⟩
      | none =>
          rw [hp] at he
          obtain ⟨r2, hr2, hp2⟩ := ih e he
          exact ⟨r2, List.mem_cons_of_mem r hr2, hp2⟩

theorem web_firehose_all_valid (now region : String) (records : List Json) :
    ∀ e ∈ web_firehose_records now region records, is_valid_record e = true := by
  intro e he
  obtain ⟨r, _, hp⟩ := mem_web_firehose now region records e he
  obtain ⟨o, d, rfl, rfl, hv, hframe, hmono⟩ := process_record_some now region r e hp
  exact is_valid_process_preserved o d hv hframe hmono

/- ----------------------------------------------------------------------
Claim C1
---------------------------------------------------------------------- -/

/-- C1 counterexample: for the fargate producer, a decoded object with an
error key is NOT a fetch failure: poll_api returns it as a one-element
snapshot, and the cycle counts as a success (the failure counter entering at
1 is reset to 0 and the normal poll-interval sleep is taken), refuting the
claim that every producer treats it as FetchError(UpstreamReportedError)
counted as a cycle failure. -/
theorem C1_counterexample :
    poll_api_decode (.jobj errDict) = some [.jobj errDict] ∧
    run_step 3 1 (fargate_cycle "T" 100 allOk (poll_api_decode (.jobj errDict))) =
      (0, SleepKind.pollInterval) :=
  ⟨rfl, rfl⟩

/-- C1 (amended): the crm and web fetchers treat a decoded object containing
an error key as a fetch failure (None, so no delivery that cycle), while the
fargate poll_api performs no error-key check and returns the object as a
one-element data snapshot. -/
theorem C1_error_key_handling (o : Dict) (h : hasKey o "error" = true) :
    crm_fetch_decode (.jobj o) = none ∧ web_fetch_decode (.jobj o) = none ∧
    poll_api_decode (.jobj o) = some [.jobj o] := by
  refine ⟨?_, ?_, rfl⟩ <;> simp [crm_fetch_decode, web_fetch_decode, h]

/-- Witness for C1_error_key_handling at the rate-limited error object. -/
theorem C1_error_key_handling_witness :
    crm_fetch_decode (.jobj errDict) = none ∧
    web_fetch_decode (.jobj errDict) = none ∧
    poll_api_decode (.jobj errDict) = some [.jobj errDict] :=
  C1_error_key_handling errDict rfl

/- ----------------------------------------------------------------------
Claim C2
---------------------------------------------------------------------- -/

/-- C2 counterexample: a cycle aborted by an unhandled exception (here: a
validated record whose numeric timestamp makes enrich_record raise) sleeps
the retry delay even though the failure counter (1) is strictly below
maxRetries (3), and does not reset it — refuting the claim that every cycle
with counter below maxRetries sleeps the normal poll interval. -/
theorem C2_counterexample :
    validate_record (.jobj badDict) = true ∧
    run_step 3 0 (fargate_cycle "T" 100 allOk (some [.jobj badDict])) =
      (1, SleepKind.retryDelay) ∧ (1 : Nat) < 3 :=
  ⟨rfl, rfl, by decide⟩

/-- C2 (amended): on a cycle that ends without an unhandled exception the
claimed policy holds — with counter value c after the success/failure update,
c below maxRetries sleeps the poll interval and keeps c, while c at or above
maxRetries sleeps the retry delay and resets to 0 unconditionally; but a
cycle ended by the except-branch increments the counter and sleeps the retry
delay without resetting, whatever the counter value. -/
theorem C2_backoff (m f c : Nat) (s : Bool) (hc : c = if s then 0 else f + 1) :
    (c < m → run_step m f (.normal s) = (c, SleepKind.pollInterval)) ∧
    (m ≤ c → run_step m f (.normal s) = (0, SleepKind.retryDelay)) ∧
    run_step m f .raised = (f + 1, SleepKind.retryDelay) := by
  refine ⟨?_, ?_, rfl⟩
  · intro h
    simp only [run_step]
    rw [← hc]
    rw [if_neg (by omega)]
  · intro h
    simp only [run_step]
    rw [← hc]
    rw [if_pos h]

/-- Witness for C2_backoff at maxRetries 3: a failing cycle at counter 0
sleeps the poll interval, a failing cycle reaching the threshold sleeps the
retry delay and resets, and the except-branch sleeps the retry delay. -/
theorem C2_backoff_witness :
    run_step 3 0 (CycleEnd.normal false) = (1, SleepKind.pollInterval) ∧
    run_step 3 2 (CycleEnd.normal false) = (0, SleepKind.retryDelay) ∧
    run_step 3 0 CycleEnd.raised = (1, SleepKind.retryDelay) :=
  ⟨(C2_backoff 3 0 1 false rfl).1 (by decide),
   (C2_backoff 3 2 3 false rfl).2.1 (by decide),
   (C2_backoff 3 0 1 false rfl).2.2⟩

/- ----------------------------------------------------------------------
Claim C3
---------------------------------------------------------------------- -/

/-- C3 counterexample: the crm producer performs no validation at all — a
record failing both validators is delivered raw to the S3 object-store batch
and to the crm Firehose batch, refuting the claim that invalid records never
appear in any configured sink's batch. -/
theorem C3_counterexample :
    validate_record strayRec = false ∧ is_valid_record strayRec = false ∧
    strayRec ∈ s3_batch [strayRec] ∧ strayRec ∈ crm_firehose_batch [strayRec] := by
  refine ⟨rfl, rfl, ?_, ?_⟩
  · exact List.mem_singleton.mpr rfl
  · rw [show crm_firehose_batch [strayRec] = [strayRec] from rfl]
    exact List.mem_singleton.mpr rfl

/-- C3 (amended): in the fargate producer a record failing validate_record
never appears in any Firehose batch (every batched element is the enrichment
of a valid record and itself validates), and in the web producer a record
failing is_valid_record never appears in the Firehose batch; the crm producer
delivers raw unvalidated records to both of its sinks. -/
theorem C3_invalid_never_in_firehose_batches :
    (∀ now : String, ∀ n : Nat, ∀ records valid : List Json, ∀ R : Json,
      fargate_valid_enriched now records = .ok valid →
      validate_record R = false →
      ∀ b ∈ chunks n valid, ¬R ∈ b) ∧
    (∀ now region : String, ∀ records : List Json, ∀ R : Json,
      is_valid_record R = false →
      ¬R ∈ web_firehose_records now region records) := by
  constructor
  · intro now n records valid R hok hR b hb hRb
    have hmem : R ∈ valid := chunks_mem_aux n valid.length valid le_rfl b hb R hRb
    have hval := fargate_valid_all_validate now records valid hok R hmem
    rw [hR] at hval
    exact Bool.noConfusion hval
  · intro now region records R hR hRb
    have hval := web_firehose_all_valid now region records R hRb
    rw [hR] at hval
    exact Bool.noConfusion hval

/-- Witness for C3_invalid_never_in_firehose_batches: the invalid record is
not in the one batch produced from one valid record. -/
theorem C3_invalid_never_in_firehose_batches_witness :
    (strayRec ∈ [Json.jobj c7out]) = False := by
  apply eq_false
  have hb : [Json.jobj c7out] ∈ chunks 1 [Json.jobj c7out] := by
    rw [chunks_singleton 1 (by decide) (Json.jobj c7out)]
    exact List.mem_singleton.mpr rfl
  exact C3_invalid_never_in_firehose_batches.1 "T" 1 [Json.jobj c7dict]
    [Json.jobj c7out] strayRec rfl rfl [Json.jobj c7out] hb

/- ----------------------------------------------------------------------
Claim C4
---------------------------------------------------------------------- -/

/-- C4 counterexample: the fargate validator accepts a record whose timestamp
field is present and null, refuting the claimed characterization in which
every present timestamp field must be non-null for validity. -/
theorem C4_counterexample :
    validate_record (.jobj nullTsDict) = true ∧
    lookupKey nullTsDict "timestamp" = some Json.jnull :=
  ⟨rfl, rfl⟩

/-- C4 (amended): the two validators decide exactly these policies — fargate:
a mapping with all three required fields, an integer customer_id and a string
interaction_type, the timestamp value unconstrained (null accepted); web: a
mapping with at least 4 of the 6 required fields whose timestamp is present
and non-null, with no type checks.  Non-mappings are invalid in both. -/
theorem C4_validator_policies (j : Json) :
    validate_record j = fargateValidPolicy j ∧
    is_valid_record j = webValidPolicy j := by
  cases j with
  | jobj o =>
      constructor
      · cases h1 : hasKey o "customer_id" <;> cases h2 : hasKey o "interaction_type" <;>
          cases h3 : hasKey o "timestamp" <;>
          simp [validate_record, fargateValidPolicy, fargate_required_fields,
            intTyped, strTyped, List.filter, h1, h2, h3]
      · simp only [is_valid_record, webValidPolicy, presentNonNull]
        by_cases h4 : 4 ≤ (required_web_fields.filter (fun f => hasKey o f)).length
        · rw [if_pos h4]
          simp [h4]
        · rw [if_neg h4]
          simp [h4]
  | jnull => exact ⟨rfl, rfl⟩
  | jbool b => exact ⟨rfl, rfl⟩
  | jint n => exact ⟨rfl, rfl⟩
  | jrat q => exact ⟨rfl, rfl⟩
  | jstr s => exact ⟨rfl, rfl⟩
  | jarr l => exact ⟨rfl, rfl⟩

/- ----------------------------------------------------------------------
Claim C5
---------------------------------------------------------------------- -/

/-- C5 counterexample: in the fargate producer a scalar top-level response
yields an empty *successful* snapshot, not a fetch error, refuting the claim
that every producer maps a scalar shape to a fetch error. -/
theorem C5_counterexample :
    poll_api_decode (.jint 5) = some [] ∧ poll_api_decode (.jint 5) ≠ none := by
  refine ⟨rfl, ?_⟩
  intro h
  exact Option.noConfusion h

/-- C5 (amended): the crm and web fetchers normalize a non-error object to a
one-element snapshot, pass an array through unchanged, and report a fetch
error on any other top-level shape; the fargate poll_api wraps any object
(error key included) and passes arrays through, but maps any other shape to
an empty successful snapshot instead of a fetch error. -/
theorem C5_shape_normalization :
    (∀ o : Dict, hasKey o "error" = false →
      crm_fetch_decode (.jobj o) = some [.jobj o] ∧
      web_fetch_decode (.jobj o) = some [.jobj o]) ∧
    (∀ l : List Json, crm_fetch_decode (.jarr l) = some l ∧
      web_fetch_decode (.jarr l) = some l ∧ poll_api_decode (.jarr l) = some l) ∧
    (∀ o : Dict, poll_api_decode (.jobj o) = some [.jobj o]) ∧
    (∀ j : Json, (∀ o : Dict, j ≠ .jobj o) → (∀ l : List Json, j ≠ .jarr l) →
      crm_fetch_decode j = none ∧ web_fetch_decode j = none ∧
      poll_api_decode j = some []) := by
  refine ⟨?_, ?_, ?_, ?_⟩
  · intro o h
    constructor <;> simp [crm_fetch_decode, web_fetch_decode, h]
  · intro l
    exact ⟨rfl, rfl, rfl⟩
  · intro o
    rfl
  · intro j hobj harr
    cases j with
    | jobj o => exact absurd rfl (hobj o)
    | jarr l => exact absurd rfl (harr l)
    | jnull => exact ⟨rfl, rfl, rfl⟩
    | jbool b => exact ⟨rfl, rfl, rfl⟩
    | jint n => exact ⟨rfl, rfl, rfl⟩
    | jrat q => exact ⟨rfl, rfl, rfl⟩
    | jstr s => exact ⟨rfl, rfl, rfl⟩

/-- Witness for C5_shape_normalization at the null top-level shape. -/
theorem C5_shape_normalization_witness :
    crm_fetch_decode Json.jnull = none ∧ web_fetch_decode Json.jnull = none ∧
    poll_api_decode Json.jnull = some [] :=
  C5_shape_normalization.2.2.2 Json.jnull (fun o h => Json.noConfusion h)
    (fun l h => Json.noConfusion h)

/- ----------------------------------------------------------------------
Claim C6
---------------------------------------------------------------------- -/

/-- C6 counterexample: enrich_record fails on a validated record whose numeric
timestamp is out of the convertible epoch range — the unguarded fromtimestamp
call raises and the exception escapes, refuting the claim that enrich never
fails and swallows conversion errors by omitting the field. -/
theorem C6_counterexample :
    validate_record (.jobj badDict) = true ∧
    enrich_record "T" (.jobj badDict) = .error () :=
  ⟨rfl, rfl⟩

/-- C6 (amended): enrich_record does return a value for every dict record
whose timestamp field, when numeric, lies in the convertible epoch range; the
raise is confined to out-of-range numeric timestamps (and is then caught only
by the outer poll-loop except-branch, see C2). -/
theorem C6_enrich_total (now : String) (o : Dict)
    (h : timestampConvertible o = true) :
    isOkE (enrich_record now (.jobj o)) = true := by
  simp only [timestampConvertible] at h
  simp only [enrich_record]
  cases hts : lookupKey o "timestamp" with
  | none => simp [hts, isOkE]
  | some v =>
      cases v with
      | jint t =>
          rw [hts] at h
          have hb : -62135596800 ≤ t ∧ t ≤ 253402300799 := of_decide_eq_true h
          simp only [hts, fromtimestampIso]
          rw [if_pos hb]
          rfl
      | jnull => simp [hts, isOkE]
      | jbool b => simp [hts, isOkE]
      | jrat q => simp [hts, isOkE]
      | jstr s => simp [hts, isOkE]
      | jarr l => simp [hts, isOkE]
      | jobj o2 => simp [hts, isOkE]

/-- Witness for C6_enrich_total at a record with an in-range epoch. -/
theorem C6_enrich_total_witness :
    isOkE (enrich_record "T" (.jobj c7dict)) = true :=
  C6_enrich_total "T" c7dict rfl

/- ----------------------------------------------------------------------
Claim C7
---------------------------------------------------------------------- -/

/-- C7: enrichment is additive in both enriching producers — whenever the
fargate enrich_record returns, every original key outside its enrichment key
set (processed_at, processor_version, data_quality_score, timestamp_iso) maps
to its original value, and no original key is removed; likewise for the web
process_record with its key set (processed_at, source, pipeline, region). -/
theorem C7_enrichment_additive :
    (∀ now : String, ∀ r d : Dict, ∀ k : String,
      enrich_record now (.jobj r) = .ok (.jobj d) →
      ¬k ∈ ["processed_at", "processor_version", "data_quality_score",
        "timestamp_iso"] →
      lookupKey d k = lookupKey r k) ∧
    (∀ now : String, ∀ r d : Dict, ∀ k : String,
      enrich_record now (.jobj r) = .ok (.jobj d) →
      hasKey r k = true → hasKey d k = true) ∧
    (∀ now region : String, ∀ r d : Dict, ∀ k : String,
      process_record now region (.jobj r) = some (.jobj d) →
      ¬k ∈ ["processed_at", "source", "pipeline", "region"] →
      lookupKey d k = lookupKey r k) ∧
    (∀ now region : String, ∀ r d : Dict, ∀ k : String,
      process_record now region (.jobj r) = some (.jobj d) →
      hasKey r k = true → hasKey d k = true) := by
  refine ⟨?_, ?_, ?_, ?_⟩
  · intro now r d k he hk
    simp only [List.mem_cons, List.not_mem_nil, or_false] at hk
    push_neg at hk
    obtain ⟨h1, h2, h3, h4⟩ := hk
    obtain ⟨d2, hd2, hframe, _, _⟩ := enrich_record_ok now r (.jobj d) he
    injection hd2 with hdd
    subst hdd
    exact hframe k h1 h2 h3 h4
  · intro now r d k he hk
    obtain ⟨d2, hd2, _, hmono, _⟩ := enrich_record_ok now r (.jobj d) he
    injection hd2 with hdd
    subst hdd
    exact hmono k hk
  · intro now region r d k hp hk
    simp only [List.mem_cons, List.not_mem_nil, or_false] at hk
    push_neg at hk
    obtain ⟨h1, h2, h3, h4⟩ := hk
    obtain ⟨o2, d2, ho2, hd2, _, hframe, _⟩ := process_record_some now region
      (.jobj r) (.jobj d) hp
    injection ho2 with hoo
    injection hd2 with hdd
    subst hoo
    subst hdd
    exact hframe k h1 h2 h3 h4
  · intro now region r d k hp hk
    obtain ⟨o2, d2, ho2, hd2, _, _, hmono⟩ := process_record_some now region
      (.jobj r) (.jobj d) hp
    injection ho2 with hoo
    injection hd2 with hdd
    subst hoo
    subst hdd
    exact hmono k hk

/-- Witness for C7_enrichment_additive: the customer_id of an enriched crm
record and the session_id of a processed web record are preserved. -/
theorem C7_enrichment_additive_witness :
    lookupKey c7out "customer_id" = lookupKey c7dict "customer_id" ∧
    hasKey webOut "session_id" = true :=
  ⟨C7_enrichment_additive.1 "T" c7dict c7out "customer_id" rfl (by simp),
   C7_enrichment_additive.2.2.2 "T" "eu-west-1" webDict webOut "session_id" rfl rfl⟩

/- ----------------------------------------------------------------------
Claim C8
---------------------------------------------------------------------- -/

/-- C8 counterexample: in the fargate producer, when the first batch
submission fails, the second batch of the same cycle is never submitted —
refuting the claim that for each sink every batch of the cycle is submitted
even after a failed batch. -/
theorem C8_counterexample :
    firehose_submitted allFail [batchA, batchB] 0 = [batchA] ∧
    ¬batchB ∈ firehose_submitted allFail [batchA, batchB] 0 := by
  refine ⟨rfl, ?_⟩
  intro h
  rw [show firehose_submitted allFail [batchA, batchB] 0 = [batchA] from rfl] at h
  have h2 := List.mem_singleton.mp h
  simp [batchA, batchB] at h2

/-- C8 (amended): sink-level independence holds in the crm producer — the
Firehose submission (outcome and batch content) is unaffected by the S3
outcome and conversely, each sink catching its own exceptions; but within the
fargate Firehose sink the batch loop stops at the first failed batch: the
failing batch is the last one submitted, and only on success does the loop
continue to the remaining batches. -/
theorem C8_sink_and_batch_independence :
    (∀ s1 s2 f : Bool, ∀ records : List Json,
      (send_to_both_destinations s1 f records).2 =
        (send_to_both_destinations s2 f records).2 ∧
      (send_to_both_destinations s1 f records).1.2 =
        (send_to_both_destinations s2 f records).1.2) ∧
    (∀ ok : Nat → Bool, ∀ i : Nat, ∀ b : List Json, ∀ rest : List (List Json),
      ok i = false → firehose_submitted ok (b :: rest) i = [b]) ∧
    (∀ ok : Nat → Bool, ∀ i : Nat, ∀ b : List Json, ∀ rest : List (List Json),
      ok i = true →
      firehose_submitted ok (b :: rest) i =
        b :: firehose_submitted ok rest (i + 1)) := by
  refine ⟨?_, ?_, ?_⟩
  · intro s1 s2 f records
    exact ⟨rfl, rfl⟩
  · intro ok i b rest h
    simp [firehose_submitted, h]
  · intro ok i b rest h
    simp [firehose_submitted, h]

/-- Witness for C8_sink_and_batch_independence: a failing single batch is
still itself submitted (and is the last submission). -/
theorem C8_sink_and_batch_independence_witness :
    firehose_submitted allFail [batchA] 0 = [batchA] :=
  C8_sink_and_batch_independence.2.1 allFail 0 batchA [] rfl

/- ----------------------------------------------------------------------
Claim C9
---------------------------------------------------------------------- -/

/-- C9: batching preserves record count and order — for every positive batch
size n, the concatenation of the batches is the original valid-record list,
the batch lengths sum to its length, and every batch holds at most n
records. -/
theorem C9_batching_preserves (n : Nat) (hn : 0 < n) (valid : List Json) :
    (chunks n valid).flatten = valid ∧
    ((chunks n valid).map List.length).sum = valid.length ∧
    ∀ b ∈ chunks n valid, b.length ≤ n := by
  refine ⟨chunks_join_aux n hn valid.length valid le_rfl, ?_,
    chunks_length_aux n valid.length valid le_rfl⟩
  rw [← List.length_flatten]
  rw [chunks_join_aux n hn valid.length valid le_rfl]

/-- Witness for C9_batching_preserves at batch size 2 over three records. -/
theorem C9_batching_preserves_witness :
    (chunks 2 [Json.jint 1, Json.jint 2, Json.jint 3]).flatten =
      [Json.jint 1, Json.jint 2, Json.jint 3] :=
  (C9_batching_preserves 2 (by decide) [Json.jint 1, Json.jint 2, Json.jint 3]).1

/- ----------------------------------------------------------------------
Claim C10
---------------------------------------------------------------------- -/

/-- C10: whenever enrich_record returns, the attached data_quality_score is
exactly 1 minus 0.2 when rating is absent, minus 0.1 when message_excerpt is
absent, minus 0.1 when channel is absent, so it always lies in [0.6, 1]; in
particular it is never negative and a defensive clamp to 0 would never
fire. -/
theorem C10_quality_score (now : String) (r e : Dict)
    (h : enrich_record now (.jobj r) = .ok (.jobj e)) :
    lookupKey e "data_quality_score" = some (.jrat (data_quality_score r)) ∧
    data_quality_score r = 1 - (if hasKey r "rating" then 0 else 2/10) -
      (if hasKey r "message_excerpt" then 0 else 1/10) -
      (if hasKey r "channel" then 0 else 1/10) ∧
    (3 : Rat)/5 ≤ data_quality_score r ∧ data_quality_score r ≤ 1 ∧
    0 ≤ data_quality_score r := by
  obtain ⟨d, hd, _, _, hscore⟩ := enrich_record_ok now r (.jobj e) h
  injection hd with hd2
  subst hd2
  obtain ⟨hlo, hhi⟩ := data_quality_score_bounds r
  refine ⟨hscore, ?_, hlo, hhi, le_trans (by norm_num) hlo⟩
  unfold data_quality_score
  cases hasKey r "rating" <;> cases hasKey r "message_excerpt" <;>
    cases hasKey r "channel" <;> norm_num

/-- Witness for C10_quality_score at a record missing all three optional
fields: the attached score is the computed one and at least 0.6. -/
theorem C10_quality_score_witness :
    lookupKey c10out "data_quality_score" =
      some (Json.jrat (data_quality_score c10dict)) ∧
    (3 : Rat)/5 ≤ data_quality_score c10dict :=
  ⟨(C10_quality_score "T" c10dict c10out rfl).1,
   (C10_quality_score "T" c10dict c10out rfl).2.2.1⟩
